import Mathlib

/-!
Shallow embedding of the client-side crypto layer of the mitthichat
repository (`src/lib/crypto.ts`), together with theorems settling the
specification claims about it.

Modelling conventions:
* JavaScript strings and byte arrays (`Uint8Array`, `ArrayBuffer`, `Blob`)
  are modelled as `List Nat`, each element one byte / UTF-16-or-UTF-8 code
  unit.  A JavaScript string is identified with its byte representation, so
  `TextEncoder.encode` / `TextDecoder.decode` are identities of the model.
* The Web Crypto primitives (`crypto.subtle`) are modelled as ideal,
  executable functions: AES-GCM is an ideal AEAD whose ciphertext is a
  keystream-masked body followed by a 16-byte tag that deterministically
  commits to the key, the IV and the body; PBKDF2 and SHA-256 are concrete
  stand-in digest functions.  A `CryptoKey` is an opaque record of the
  derivation inputs, mirroring the opaque browser handle.
* Randomness (`crypto.getRandomValues`) is injected: the freshly drawn IV
  is a parameter of the embedded functions.
* Fallible operations (`atob` on malformed base64, `crypto.subtle.decrypt`
  on a bad tag, `crypto.subtle.exportKey` on a non-extractable key) return
  `Option`, `none` standing for a thrown exception.
-/

/-! ### Constants from the top of `crypto.ts` -/

def PBKDF2_ITERATIONS : Nat := 200000

def SALT_LENGTH : Nat := 16

def IV_LENGTH : Nat := 12

def KEY_LENGTH : Nat := 256

/-- The chunk size used by `encryptFileStream` and `decryptFileStream`:
`2 * 1024 * 1024` bytes (2 MiB). -/
def chunkSize : Nat := 2 * 1024 * 1024

/-! ### Base64 (`btoa` / `atob`)

`btoa` maps a binary string (a list of bytes) to its base64 character
codes; `atob` decodes, returning `none` where the browser throws
`InvalidCharacterError`. -/

/-- Character code of the base64 digit for a sextet `n < 64`. -/
def b64EncChar (n : Nat) : Nat :=
  if n < 26 then 65 + n
  else if n < 52 then 97 + (n - 26)
  else if n < 62 then 48 + (n - 52)
  else if n = 62 then 43
  else 47

/-- Sextet encoded by base64 character code `c`, `none` if `c` is not a
base64 digit. -/
def b64DecChar (c : Nat) : Option Nat :=
  if 65 ≤ c ∧ c ≤ 90 then some (c - 65)
  else if 97 ≤ c ∧ c ≤ 122 then some (c - 97 + 26)
  else if 48 ≤ c ∧ c ≤ 57 then some (c - 48 + 52)
  else if c = 43 then some 62
  else if c = 47 then some 63
  else none

/-- Model of `btoa`: base64-encode a byte list (code 61 is the padding char `=`). -/
def btoa : List Nat → List Nat
  | [] => []
  | [b0] => [b64EncChar (b0 / 4), b64EncChar (b0 % 4 * 16), 61, 61]
  | [b0, b1] =>
      [b64EncChar (b0 / 4), b64EncChar (b0 % 4 * 16 + b1 / 16),
       b64EncChar (b1 % 16 * 4), 61]
  | b0 :: b1 :: b2 :: rest =>
      b64EncChar (b0 / 4) :: b64EncChar (b0 % 4 * 16 + b1 / 16) ::
      b64EncChar (b1 % 16 * 4 + b2 / 64) :: b64EncChar (b2 % 64) :: btoa rest

/-- Model of `atob`: base64-decode a character-code list, `none` on malformed
input (where the browser `atob` throws). -/
def atob : List Nat → Option (List Nat)
  | [] => some []
  | c0 :: c1 :: c2 :: c3 :: rest =>
      (b64DecChar c0).bind (fun s0 =>
      (b64DecChar c1).bind (fun s1 =>
      if c2 = 61 then
        if c3 = 61 ∧ rest = [] then some [s0 * 4 + s1 / 16] else none
      else
        (b64DecChar c2).bind (fun s2 =>
        if c3 = 61 then
          if rest = [] then
            some [s0 * 4 + s1 / 16, s1 % 16 * 16 + s2 / 4]
          else none
        else
          (b64DecChar c3).bind (fun s3 =>
          (atob rest).map (fun tail =>
            (s0 * 4 + s1 / 16) :: (s1 % 16 * 16 + s2 / 4) ::
            (s2 % 4 * 64 + s3) :: tail)))))
  | _ => none

/-! ### Keys and the Web Crypto primitives -/

/-- Model of the opaque browser `CryptoKey` produced by
`crypto.subtle.deriveKey`: it records the PBKDF2 inputs (key material,
salt, iteration count), the requested AES key length, and the
`extractable` flag passed at creation. -/
structure CryptoKey where
  password : List Nat
  salt : List Nat
  iterations : Nat
  length : Nat
  extractable : Bool
  deriving DecidableEq, Repr

/-- Ideal stand-in for the PBKDF2-HMAC-SHA-256 output bits
(`len` bytes).  Only its determinism matters to the claims. -/
def pbkdf2Sha256Bytes (password salt : List Nat) (iterations len : Nat) : List Nat :=
  (List.range len).map (fun i =>
    (password.foldl (fun a b => (a * 131 + b + 1) % 65536) (iterations + i) +
     salt.foldl (fun a b => (a * 131 + b + 1) % 65536) i) % 256)

/-- Ideal stand-in for the SHA-256 digest (32 bytes). -/
def sha256 (data : List Nat) : List Nat :=
  (List.range 32).map (fun i =>
    (data.foldl (fun a b => (a * 131 + b + 1) % 65536) i) % 256)

/-- Model of `crypto.subtle.exportKey('raw', key)`: per the Web Crypto
specification this throws `InvalidAccessError` when the key was created
with `extractable = false`; otherwise it returns the raw key bytes. -/
def subtleExportKeyRaw (key : CryptoKey) : Option (List Nat) :=
  if key.extractable then
    some (pbkdf2Sha256Bytes key.password key.salt key.iterations (key.length / 8))
  else none

/-- Scalar the ideal AEAD mixes into keystream and tag: a fingerprint of
the key material. -/
def keyFingerprint (key : CryptoKey) : Nat :=
  key.password.sum + key.salt.sum + key.iterations

/-- Keystream byte of the ideal AES-GCM under `(key, iv)`. -/
def gcmKeystreamByte (key : CryptoKey) (iv : List Nat) : Nat :=
  (keyFingerprint key + iv.sum) % 256

/-- The 16-byte authentication tag of the ideal AES-GCM: a deterministic
commitment to the key, the IV and the ciphertext body. -/
def gcmTag (key : CryptoKey) (iv body : List Nat) : List Nat :=
  List.replicate 16 ((keyFingerprint key + iv.sum + body.sum + body.length + 1) % 256)

/-- Model of `crypto.subtle.encrypt({name:'AES-GCM', iv}, key, pt)` (no
`additionalData` — the source never passes any): ciphertext is the
keystream-masked body with the 16-byte tag appended, so its length is the
plaintext length plus 16. -/
def subtleEncrypt (key : CryptoKey) (iv pt : List Nat) : List Nat :=
  let body := pt.map (fun b => Nat.xor b (gcmKeystreamByte key iv))
  body ++ gcmTag key iv body

/-- Model of `crypto.subtle.decrypt({name:'AES-GCM', iv}, key, ct)`: splits off
the trailing 16-byte tag, recomputes it, and unmasks the body only when
the tag verifies; `none` models the thrown `OperationError`. -/
def subtleDecrypt (key : CryptoKey) (iv ct : List Nat) : Option (List Nat) :=
  if ct.length < 16 then none
  else
    let body := ct.take (ct.length - 16)
    let tag := ct.drop (ct.length - 16)
    if gcmTag key iv body = tag then
      some (body.map (fun b => Nat.xor b (gcmKeystreamByte key iv)))
    else none

/-! ### `deriveKey` -/

/-- The `salt` argument of `deriveKey`: either a `Uint8Array` or a base64
string (the source branches on `typeof salt === 'string'`). -/
inductive SaltInput where
  | bytes (b : List Nat)
  | b64 (s : List Nat)
  deriving DecidableEq, Repr

/-- Model of `deriveKey(roomCode, salt)` from `crypto.ts`: a string salt is
base64-decoded with `atob` (which may throw), the room code is imported
as PBKDF2 key material, and the AES-GCM key is derived with
`PBKDF2_ITERATIONS` iterations, `KEY_LENGTH` bits and
`extractable = false`.  No validation of the room code or the salt length
is performed anywhere. -/
def deriveKey (roomCode : List Nat) (salt : SaltInput) : Option CryptoKey :=
  match salt with
  | .bytes b =>
      some { password := roomCode, salt := b, iterations := PBKDF2_ITERATIONS,
             length := KEY_LENGTH, extractable := false }
  | .b64 s =>
      (atob s).map (fun b =>
        { password := roomCode, salt := b, iterations := PBKDF2_ITERATIONS,
          length := KEY_LENGTH, extractable := false })

/-! ### `encryptString` / `decryptString` -/

/-- Model of `encryptString(plaintext, key)` with the randomly drawn IV injected
as the `iv` parameter; returns `(ciphertext, iv)`, both base64. -/
def encryptString (plaintext : List Nat) (key : CryptoKey) (iv : List Nat) :
    List Nat × List Nat :=
  (btoa (subtleEncrypt key iv plaintext), btoa iv)

/-- Model of `decryptString(ciphertext, iv, key)`: base64-decode both fields and
decrypt; any thrown exception is `none`. -/
def decryptString (ciphertext iv : List Nat) (key : CryptoKey) : Option (List Nat) :=
  (atob ciphertext).bind (fun ctBytes =>
  (atob iv).bind (fun ivBytes =>
  subtleDecrypt key ivBytes ctBytes))

/-! ### Chunking

The `while (offset < size)` loops of `encryptFileStream` and
`decryptFileStream` slice their input into `chunkSize`-byte pieces (the
last piece may be shorter).  `chunksOf` computes that slice list; the
fuel argument (`l.length` at the start) only bounds the recursion and
never cuts it short, since every step with a non-empty list consumes at
least one element. -/

def chunksOfAux (n : Nat) : Nat → List Nat → List (List Nat)
  | _, [] => []
  | 0, _ => []
  | fuel + 1, l => l.take n :: chunksOfAux n fuel (l.drop n)

def chunksOf (n : Nat) (l : List Nat) : List (List Nat) :=
  chunksOfAux n l.length l

/-- Sequential `Option`-valued map: the first failing element aborts the
whole computation, as a thrown exception aborts the `await` loop. -/
def mapMOpt {α β : Type} (f : α → Option β) : List α → Option (List β)
  | [] => some []
  | a :: l => (f a).bind (fun b => (mapMOpt f l).map (fun bs => b :: bs))

/-! ### `encryptFileStream` / `decryptFileStream` -/

/-- Model of `encryptFileStream(file, key)` with the random IV injected: the file
is sliced into `chunkSize`-byte chunks, each chunk is encrypted with
`crypto.subtle.encrypt` under the **same** `iv` binding, and the
encrypted chunks are concatenated; returns `(encryptedBlob, btoa iv)`. -/
def encryptFileStream (file : List Nat) (key : CryptoKey) (iv : List Nat) :
    List Nat × List Nat :=
  (((chunksOf chunkSize file).map (fun chunk => subtleEncrypt key iv chunk)).flatten,
   btoa iv)

/-- The IV that `encryptFileStream`'s loop passes to
`crypto.subtle.encrypt` for each chunk of `file`: every iteration uses
the one `iv` generated before the loop. -/
def encryptFileStreamChunkIVs (file iv : List Nat) : List (List Nat) :=
  (chunksOf chunkSize file).map (fun _ => iv)

/-- Model of `decryptFileStream(blob, iv, key)`: base64-decode the IV, slice the
encrypted blob into `chunkSize`-byte pieces, decrypt each piece with the
same IV, and concatenate; `none` models a thrown exception. -/
def decryptFileStream (blob ivB64 : List Nat) (key : CryptoKey) : Option (List Nat) :=
  (atob ivB64).bind (fun ivBytes =>
  (mapMOpt (fun chunk => subtleDecrypt key ivBytes chunk)
      (chunksOf chunkSize blob)).map (fun chunks => chunks.flatten))

/-! ### `computeVerifierHash` / `verifyRoomCode` -/

/-- Model of `computeVerifierHash(key)`: export the raw key (throws for a
non-extractable key), SHA-256 it, base64-encode the digest. -/
def computeVerifierHash (key : CryptoKey) : Option (List Nat) :=
  (subtleExportKeyRaw key).map (fun exported => btoa (sha256 exported))

/-- The body of `verifyRoomCode`'s `try` block: derive, hash, compare;
`none` if any step throws. -/
def verifyRoomCodeInner (roomCode salt expectedHash : List Nat) : Option Bool :=
  (deriveKey roomCode (SaltInput.b64 salt)).bind (fun key =>
  (computeVerifierHash key).map (fun hash => decide (hash = expectedHash)))

/-- Model of `verifyRoomCode(roomCode, salt, expectedHash)`: the `catch` clause
turns any exception into the result `false`. -/
def verifyRoomCode (roomCode salt expectedHash : List Nat) : Bool :=
  (verifyRoomCodeInner roomCode salt expectedHash).getD false

/-! ### Concrete material used by counterexamples and witnesses -/

/-- UTF-8 bytes of the room code `"room"`. -/
def roomBytes : List Nat := [114, 111, 111, 109]

/-- UTF-8 bytes of the room code `"correct-horse-battery"`. -/
def sampleRoomCode : List Nat :=
  [99, 111, 114, 114, 101, 99, 116, 45, 104, 111, 114, 115, 101, 45,
   98, 97, 116, 116, 101, 114, 121]

/-- A fixed 16-byte salt. -/
def sampleSalt : List Nat := List.replicate 16 0

/-- A fixed 12-byte IV. -/
def iv0 : List Nat := List.replicate 12 0

/-- The key `deriveKey` produces for room code `"room"` and `sampleSalt`. -/
def key0 : CryptoKey :=
  { password := roomBytes, salt := sampleSalt, iterations := PBKDF2_ITERATIONS,
    length := KEY_LENGTH, extractable := false }

/-- A two-chunk payload: one byte more than `chunkSize`, so the final
segment is not chunk-aligned. -/
def bigPayload : List Nat := List.replicate 2097153 0

/-- Ciphertext of `bigPayload`'s first (full) chunk under `key0, iv0`. -/
def chunk0CT : List Nat := subtleEncrypt key0 iv0 (List.replicate 2097152 0)

/-- Ciphertext of `bigPayload`'s second (1-byte) chunk under `key0, iv0`. -/
def chunk1CT : List Nat := subtleEncrypt key0 iv0 [0]

/-! ### Base64 round-trip -/

theorem b64DecChar_b64EncChar : ∀ n, n < 64 → b64DecChar (b64EncChar n) = some n := by
  decide

theorem b64EncChar_ne_pad : ∀ n, n < 64 → b64EncChar n ≠ 61 := by
  decide


/-- Decoding inverts encoding on genuine byte lists (every entry below
256), matching `atob(btoa(s)) === s` for binary strings. -/
theorem atob_btoa : ∀ l : List Nat, (∀ b ∈ l, b < 256) → atob (btoa l) = some l
  | [], _ => rfl
  | [b0], h => by
      have hb0 : b0 < 256 := h b0 (by simp)
      have h0 : b64DecChar (b64EncChar (b0 / 4)) = some (b0 / 4) :=
        b64DecChar_b64EncChar _ (by omega)
      have h1 : b64DecChar (b64EncChar (b0 % 4 * 16)) = some (b0 % 4 * 16) :=
        b64DecChar_b64EncChar _ (by omega)
      simp only [btoa, atob, h0, h1, Option.some_bind, if_pos rfl, and_self, if_true,
        Option.some.injEq, List.cons.injEq, and_true]
      omega
  | [b0, b1], h => by
      have hb0 : b0 < 256 := h b0 (by simp)
      have hb1 : b1 < 256 := h b1 (by simp)
      have h0 : b64DecChar (b64EncChar (b0 / 4)) = some (b0 / 4) :=
        b64DecChar_b64EncChar _ (by omega)
      have h1 : b64DecChar (b64EncChar (b0 % 4 * 16 + b1 / 16)) =
          some (b0 % 4 * 16 + b1 / 16) :=
        b64DecChar_b64EncChar _ (by omega)
      have hne2 : b64EncChar (b1 % 16 * 4) ≠ 61 := b64EncChar_ne_pad _ (by omega)
      have h2 : b64DecChar (b64EncChar (b1 % 16 * 4)) = some (b1 % 16 * 4) :=
        b64DecChar_b64EncChar _ (by omega)
      simp only [btoa, atob, h0, h1, h2, hne2, Option.some_bind, if_false, if_pos rfl,
        if_true, ite_false, ite_true, Option.some.injEq, List.cons.injEq, and_true]
      constructor <;> omega
  | b0 :: b1 :: b2 :: rest, h => by
      have hb0 : b0 < 256 := h b0 (by simp)
      have hb1 : b1 < 256 := h b1 (by simp)
      have hb2 : b2 < 256 := h b2 (by simp)
      have hrest : ∀ b ∈ rest, b < 256 := fun b hb => h b (by simp [hb])
      have ih : atob (btoa rest) = some rest := atob_btoa rest hrest
      have h0 : b64DecChar (b64EncChar (b0 / 4)) = some (b0 / 4) :=
        b64DecChar_b64EncChar _ (by omega)
      have h1 : b64DecChar (b64EncChar (b0 % 4 * 16 + b1 / 16)) =
          some (b0 % 4 * 16 + b1 / 16) :=
        b64DecChar_b64EncChar _ (by omega)
      have hne2 : b64EncChar (b1 % 16 * 4 + b2 / 64) ≠ 61 :=
        b64EncChar_ne_pad _ (by omega)
      have h2 : b64DecChar (b64EncChar (b1 % 16 * 4 + b2 / 64)) =
          some (b1 % 16 * 4 + b2 / 64) :=
        b64DecChar_b64EncChar _ (by omega)
      have hne3 : b64EncChar (b2 % 64) ≠ 61 := b64EncChar_ne_pad _ (by omega)
      have h3 : b64DecChar (b64EncChar (b2 % 64)) = some (b2 % 64) :=
        b64DecChar_b64EncChar _ (by omega)
      match rest, ih with
      | [], ih =>
          simp only [btoa, atob, h0, h1, h2, h3, hne2, hne3, Option.some_bind,
            if_false, ite_false, Option.map_some', Option.some.injEq,
            List.cons.injEq, and_true]
          refine ⟨by omega, by omega, by omega⟩
      | r0 :: rest', ih =>
          simp only [btoa, atob, h0, h1, h2, h3, hne2, hne3, Option.some_bind,
            if_false, ite_false] at ih ⊢
          rw [ih]
          simp only [Option.map_some', Option.some.injEq, List.cons.injEq, and_true,
            and_self]
          refine ⟨by omega, by omega, by omega⟩

/-! ### Chunking lemmas -/

theorem chunksOfAux_nil (n fuel : Nat) : chunksOfAux n fuel [] = [] := by
  cases fuel <;> rfl

theorem chunksOfAux_congr (n : Nat) (hn : 0 < n) :
    ∀ f1 f2 (l : List Nat), l.length ≤ f1 → l.length ≤ f2 →
      chunksOfAux n f1 l = chunksOfAux n f2 l
  | 0, f2, l, h1, _ => by
      have hl : l = [] := List.eq_nil_of_length_eq_zero (Nat.le_zero.mp h1)
      subst hl
      rw [chunksOfAux_nil, chunksOfAux_nil]
  | f1 + 1, f2, [], _, _ => by rw [chunksOfAux_nil, chunksOfAux_nil]
  | f1 + 1, f2, a :: t, h1, h2 => by
      cases f2 with
      | zero => simp at h2
      | succ f2 =>
          show (a :: t).take n :: chunksOfAux n f1 ((a :: t).drop n) =
            (a :: t).take n :: chunksOfAux n f2 ((a :: t).drop n)
          have hd : ((a :: t).drop n).length = t.length + 1 - n := by
            simp [List.length_drop]
          congr 1
          exact chunksOfAux_congr n hn f1 f2 ((a :: t).drop n)
            (by simp at h1; omega) (by simp at h2; omega)

theorem chunksOf_nil (n : Nat) : chunksOf n [] = [] := by
  simp [chunksOf, chunksOfAux_nil]

theorem chunksOf_cons (n : Nat) (hn : 0 < n) (l : List Nat) (hl : l ≠ []) :
    chunksOf n l = l.take n :: chunksOf n (l.drop n) := by
  obtain ⟨a, t, rfl⟩ := List.exists_cons_of_ne_nil hl
  show chunksOfAux n (t.length + 1) (a :: t) = _
  rw [show chunksOfAux n (t.length + 1) (a :: t) =
      (a :: t).take n :: chunksOfAux n t.length ((a :: t).drop n) from rfl]
  unfold chunksOf
  congr 1
  exact chunksOfAux_congr n hn t.length ((a :: t).drop n).length ((a :: t).drop n)
    (by simp [List.length_drop]; omega) (le_refl _)

theorem chunksOf_single (n : Nat) (hn : 0 < n) (l : List Nat) (hl : l ≠ [])
    (hlen : l.length ≤ n) : chunksOf n l = [l] := by
  rw [chunksOf_cons n hn l hl, List.take_of_length_le hlen,
    List.drop_of_length_le hlen, chunksOf_nil]

theorem chunksOf_pair (n : Nat) (hn : 0 < n) (l1 l2 : List Nat) (h1 : l1.length = n)
    (h2 : l2 ≠ []) (h2len : l2.length ≤ n) : chunksOf n (l1 ++ l2) = [l1, l2] := by
  have hne : l1 ++ l2 ≠ [] := by
    intro hcontra
    rcases List.append_eq_nil.mp hcontra with ⟨-, h⟩
    exact h2 h
  rw [chunksOf_cons n hn _ hne, List.take_left' h1, List.drop_left' h1,
    chunksOf_single n hn l2 h2 h2len]

/-! ### Lemmas on `mapMOpt` and the ideal AEAD -/

theorem mapMOpt_nil {α β : Type} (f : α → Option β) : mapMOpt f [] = some [] := rfl

theorem mapMOpt_cons {α β : Type} (f : α → Option β) (a : α) (l : List α) :
    mapMOpt f (a :: l) = (f a).bind (fun b => (mapMOpt f l).map (fun bs => b :: bs)) :=
  rfl

/-- Decryption of a well-framed ciphertext (a body with a 16-byte tag
appended) reduces to the tag comparison. -/
theorem subtleDecrypt_append (key : CryptoKey) (iv body tag : List Nat)
    (htag : tag.length = 16) :
    subtleDecrypt key iv (body ++ tag) =
      if gcmTag key iv body = tag then
        some (body.map (fun b => Nat.xor b (gcmKeystreamByte key iv)))
      else none := by
  have hlen : (body ++ tag).length = body.length + 16 := by simp [htag]
  simp only [subtleDecrypt, hlen]
  rw [if_neg (by omega)]
  simp only [Nat.add_sub_cancel]
  rw [List.take_left, List.drop_left]

/-- The ideal AEAD round-trips: decrypting an `subtleEncrypt` output
under the same key and IV recovers the plaintext. -/
theorem subtleDecrypt_subtleEncrypt (key : CryptoKey) (iv pt : List Nat) :
    subtleDecrypt key iv (subtleEncrypt key iv pt) = some pt := by
  simp only [subtleEncrypt]
  rw [subtleDecrypt_append key iv _ _ (by simp [gcmTag]), if_pos rfl]
  simp only [List.map_map, Option.some.injEq]
  have hcomp : ((fun b => Nat.xor b (gcmKeystreamByte key iv)) ∘
      fun b => Nat.xor b (gcmKeystreamByte key iv)) = id := by
    funext x
    simp only [Function.comp, id]
    exact Nat.xor_cancel_right _ x
  rw [hcomp, List.map_id]

theorem subtleEncrypt_length (key : CryptoKey) (iv pt : List Nat) :
    (subtleEncrypt key iv pt).length = pt.length + 16 := by
  simp [subtleEncrypt, gcmTag]

theorem subtleEncrypt_ne_nil (key : CryptoKey) (iv pt : List Nat) :
    subtleEncrypt key iv pt ≠ [] := by
  intro hcontra
  have := subtleEncrypt_length key iv pt
  rw [hcontra] at this
  simp at this

/-- Ciphertext bytes stay below 256 when the plaintext bytes do. -/
theorem subtleEncrypt_lt (key : CryptoKey) (iv pt : List Nat)
    (hpt : ∀ b ∈ pt, b < 256) : ∀ b ∈ subtleEncrypt key iv pt, b < 256 := by
  intro b hb
  have h256 : (256 : Nat) = 2 ^ 8 := by norm_num
  simp only [subtleEncrypt, List.mem_append, List.mem_map] at hb
  rcases hb with ⟨x, hx, rfl⟩ | hb
  · have h1 : x < 2 ^ 8 := by rw [← h256]; exact hpt x hx
    have h2 : gcmKeystreamByte key iv < 2 ^ 8 := by
      rw [← h256]
      exact Nat.mod_lt _ (by norm_num)
    rw [h256]
    exact Nat.xor_lt_two_pow h1 h2
  · simp only [gcmTag, List.mem_replicate] at hb
    rcases hb with ⟨-, rfl⟩
    exact Nat.mod_lt _ (by norm_num)

/-! ### Claim C5 — string round-trip -/

/-- Claim C5: for every UTF-8 string `p` (modelled as its byte list) and
every key, `decryptString` applied to the ciphertext and IV produced by
`encryptString p key` under the same key returns exactly `p`.  The byte
bounds state that `p` and the IV consist of genuine bytes. -/
theorem decryptString_encryptString_roundtrip (pt : List Nat) (key : CryptoKey)
    (iv : List Nat) (hpt : ∀ b ∈ pt, b < 256) (hiv : ∀ b ∈ iv, b < 256) :
    decryptString (encryptString pt key iv).1 (encryptString pt key iv).2 key =
      some pt := by
  simp only [encryptString, decryptString]
  rw [atob_btoa _ (subtleEncrypt_lt key iv pt hpt), atob_btoa iv hiv]
  simp only [Option.some_bind]
  exact subtleDecrypt_subtleEncrypt key iv pt

theorem decryptString_encryptString_roundtrip_witness :
    (∀ b ∈ ([104, 105] : List Nat), b < 256) ∧ (∀ b ∈ iv0, b < 256) ∧
    decryptString (encryptString [104, 105] key0 iv0).1
      (encryptString [104, 105] key0 iv0).2 key0 = some [104, 105] :=
  ⟨by decide, by decide,
   decryptString_encryptString_roundtrip [104, 105] key0 iv0 (by decide) (by decide)⟩

/-! ### Claim C6 — `deriveKey` input validation -/

/-- Claim C6 as stated is false: at the concrete input with an empty
room code and a 15-byte salt, `deriveKey` returns a key rather than
failing. -/
theorem deriveKey_no_failure_counterexample :
    (deriveKey [] (SaltInput.bytes (List.replicate 15 0))).isSome = true := rfl

/-- Claim C6 (amended): `deriveKey` performs no validation at all — for
any room code (including the empty one) and a byte-array salt of any
length (including lengths other than 16) it succeeds and returns the
PBKDF2-derived key; no `KeyDerivationError` exists in the code. -/
theorem deriveKey_no_validation (roomCode saltBytes : List Nat) :
    deriveKey roomCode (SaltInput.bytes saltBytes) =
      some { password := roomCode, salt := saltBytes,
             iterations := PBKDF2_ITERATIONS, length := KEY_LENGTH,
             extractable := false } := rfl

/-! ### Claim C7 — `verifyRoomCode` catches every exception -/

/-- Claim C7: whenever the try-block pipeline of `verifyRoomCode` (key
derivation, export, hashing, comparison) throws — modelled as
`verifyRoomCodeInner` returning `none` — `verifyRoomCode` returns
`false`; by its `Bool` return type in the embedding it never propagates
an error. -/
theorem verifyRoomCode_catches_exceptions (roomCode salt expectedHash : List Nat)
    (herr : verifyRoomCodeInner roomCode salt expectedHash = none) :
    verifyRoomCode roomCode salt expectedHash = false := by
  simp [verifyRoomCode, herr]

theorem verifyRoomCode_catches_exceptions_witness :
    verifyRoomCodeInner [] [] [] = none ∧ verifyRoomCode [] [] [] = false :=
  ⟨by decide, verifyRoomCode_catches_exceptions [] [] [] (by decide)⟩

/-! ### Claim C8 — determinism and parameters of `deriveKey` -/

/-- Claim C8: `deriveKey` is a pure function of its inputs (so two calls
on the same room code and salt give the same — byte-identical — key, and
no call order or prior call can influence it), and the key it returns is
exactly the PBKDF2 key over the UTF-8 room code bytes and the salt with
200,000 iterations and a 256-bit AES-GCM target. -/
theorem deriveKey_deterministic (roomCode saltBytes : List Nat) :
    deriveKey roomCode (SaltInput.bytes saltBytes) =
      deriveKey roomCode (SaltInput.bytes saltBytes) ∧
    PBKDF2_ITERATIONS = 200000 ∧ KEY_LENGTH = 256 ∧
    deriveKey roomCode (SaltInput.bytes saltBytes) =
      some { password := roomCode, salt := saltBytes, iterations := 200000,
             length := 256, extractable := false } :=
  ⟨rfl, rfl, rfl, rfl⟩

/-! ### Claim C9 — single-chunk stream round-trip -/

/-- Claim C9: for every payload of at most `2 MiB - 16` bytes (2,097,136
bytes) — so that its single ciphertext chunk of plaintext plus 16-byte
tag does not cross the decryptor's 2 MiB slicing boundary — and every
key, `decryptFileStream` inverts `encryptFileStream` exactly. -/
theorem decryptFileStream_encryptFileStream_small (file : List Nat)
    (key : CryptoKey) (iv : List Nat) (hlen : file.length ≤ 2097136)
    (hiv : ∀ b ∈ iv, b < 256) :
    decryptFileStream (encryptFileStream file key iv).1
      (encryptFileStream file key iv).2 key = some file := by
  have hcs : 0 < chunkSize := by norm_num [chunkSize]
  by_cases hf : file = []
  · subst hf
    simp [encryptFileStream, decryptFileStream, chunksOf_nil, mapMOpt_nil,
      atob_btoa iv hiv]
  · have hfl : file.length ≤ chunkSize := by
      have : chunkSize = 2097152 := by norm_num [chunkSize]
      omega
    have henc : (encryptFileStream file key iv).1 = subtleEncrypt key iv file := by
      simp [encryptFileStream, chunksOf_single chunkSize hcs file hf hfl]
    have henc2 : (encryptFileStream file key iv).2 = btoa iv := rfl
    rw [henc, henc2]
    simp only [decryptFileStream, atob_btoa iv hiv, Option.some_bind]
    rw [chunksOf_single chunkSize hcs _ (subtleEncrypt_ne_nil key iv file)
      (by rw [subtleEncrypt_length]
          have : chunkSize = 2097152 := by norm_num [chunkSize]
          omega)]
    simp [mapMOpt_cons, mapMOpt_nil, subtleDecrypt_subtleEncrypt]

theorem decryptFileStream_encryptFileStream_small_witness :
    ([1, 2, 3] : List Nat).length ≤ 2097136 ∧ (∀ b ∈ iv0, b < 256) ∧
    decryptFileStream (encryptFileStream [1, 2, 3] key0 iv0).1
      (encryptFileStream [1, 2, 3] key0 iv0).2 key0 = some [1, 2, 3] :=
  ⟨by decide, by decide,
   decryptFileStream_encryptFileStream_small [1, 2, 3] key0 iv0 (by decide) (by decide)⟩

/-! ### Claim C10 — the empty encrypted blob is accepted -/

/-- Claim C10: for every key and every 12-byte IV, `decryptFileStream`
of the empty blob returns the empty blob with no error — the decrypt
loop body never runs, so a payload truncated to zero chunks is accepted
rather than rejected. -/
theorem decryptFileStream_empty_blob (key : CryptoKey) (iv : List Nat)
    (hlen12 : iv.length = 12) (hiv : ∀ b ∈ iv, b < 256) :
    decryptFileStream [] (btoa iv) key = some [] := by
  have _ := hlen12
  simp [decryptFileStream, atob_btoa iv hiv, chunksOf_nil, mapMOpt_nil]

theorem decryptFileStream_empty_blob_witness :
    iv0.length = 12 ∧ (∀ b ∈ iv0, b < 256) ∧
    decryptFileStream [] (btoa iv0) key0 = some [] :=
  ⟨by decide, by decide, decryptFileStream_empty_blob key0 iv0 (by decide) (by decide)⟩

/-! ### Helper facts for the refuted claims -/

/-- Helper: `verifyRoomCode` returns `false` on every input: `deriveKey` creates
the key with `extractable = false`, so the `exportKey` call inside
`computeVerifierHash` always throws and the `catch` yields `false`. -/
theorem verifyRoomCode_false (roomCode salt expectedHash : List Nat) :
    verifyRoomCode roomCode salt expectedHash = false := by
  simp only [verifyRoomCode, verifyRoomCodeInner, deriveKey]
  cases hA : atob salt with
  | none => simp
  | some saltBytes =>
      simp [computeVerifierHash, subtleExportKeyRaw]

/-- Sum of a replicated list, stated with plain multiplication so that
literal arithmetic stays on binary `Nat` operations. -/
theorem sum_replicate_mul (n a : Nat) : (List.replicate n a).sum = n * a := by
  induction n with
  | zero => simp
  | succ k ih =>
      rw [List.replicate_succ, List.sum_cons, ih, Nat.succ_mul]
      omega

theorem keyFingerprint_key0 : keyFingerprint key0 = 200445 := by decide

theorem iv0_sum : iv0.sum = 0 := by decide

theorem iv0_lt : ∀ b ∈ iv0, b < 256 := by decide

theorem atob_btoa_iv0 : atob (btoa iv0) = some iv0 := by decide

theorem chunksOf_bigPayload :
    chunksOf chunkSize bigPayload = [List.replicate 2097152 0, [0]] := by
  have h : bigPayload = List.replicate 2097152 0 ++ [0] := by
    show List.replicate 2097153 0 = _
    rw [show (2097153 : Nat) = 2097152 + 1 from by norm_num, List.replicate_add]
    rfl
  rw [h]
  exact chunksOf_pair chunkSize (by norm_num [chunkSize]) _ _
    (by rw [List.length_replicate]; norm_num [chunkSize]) (by simp)
    (by norm_num [chunkSize])

theorem chunk0CT_eq :
    chunk0CT = List.replicate 2097152 253 ++ List.replicate 16 254 := by
  have hks : gcmKeystreamByte key0 iv0 = 253 := by decide
  have hx : Nat.xor 0 253 = 253 := by decide
  simp only [chunk0CT, subtleEncrypt, hks, List.map_replicate, hx,
    gcmTag, keyFingerprint_key0, iv0_sum, sum_replicate_mul,
    List.length_replicate]

theorem chunk1CT_eq : chunk1CT = 253 :: List.replicate 16 252 := by decide

/-- The decryptor's first 2 MiB slice of the two-chunk ciphertext: it
cuts `chunk0CT` 16 bytes short, so the recomputed tag cannot match the
16 ciphertext bytes standing where the tag is expected. -/
theorem subtleDecrypt_full_slice :
    subtleDecrypt key0 iv0 (List.replicate 2097152 253) = none := by
  have hsplit : List.replicate 2097152 253 =
      List.replicate 2097136 253 ++ List.replicate 16 253 := by
    rw [← List.replicate_add]
  rw [hsplit, subtleDecrypt_append key0 iv0 _ _ (by simp)]
  rw [if_neg]
  intro hcontra
  simp only [gcmTag, keyFingerprint_key0, iv0_sum, sum_replicate_mul,
    List.length_replicate] at hcontra
  exact absurd hcontra (by decide)

/-- Tag of a ciphertext body of the shape `c :: (x-block ++ y-block)`,
with all sizes symbolic so no large list is ever evaluated. -/
theorem gcmTag_cons_append_replicate (key : CryptoKey) (iv : List Nat)
    (c x y m n : Nat) :
    gcmTag key iv (c :: (List.replicate m x ++ List.replicate n y)) =
    List.replicate 16 ((keyFingerprint key + iv.sum + (c + (m * x + n * y)) +
      (m + n + 1) + 1) % 256) := by
  simp only [gcmTag, List.sum_cons, List.sum_append, sum_replicate_mul,
    List.length_cons, List.length_append, List.length_replicate]

/-- The decryptor's first 2 MiB slice of the chunk-swapped ciphertext is
likewise rejected. -/
theorem subtleDecrypt_swapped_slice :
    subtleDecrypt key0 iv0
      (253 :: (List.replicate 16 252 ++ List.replicate 2097135 253)) = none := by
  have hsplit : (253 :: (List.replicate 16 252 ++ List.replicate 2097135 253)) =
      (253 :: (List.replicate 16 252 ++ List.replicate 2097119 253)) ++
        List.replicate 16 253 := by
    rw [show List.replicate 2097135 253 =
        List.replicate 2097119 253 ++ List.replicate 16 253 from by
      rw [← List.replicate_add]]
    simp only [List.cons_append, List.append_assoc]
  rw [hsplit, subtleDecrypt_append key0 iv0 _ _ (by simp)]
  rw [if_neg]
  intro hcontra
  rw [gcmTag_cons_append_replicate, keyFingerprint_key0, iv0_sum] at hcontra
  exact absurd hcontra (by decide)

theorem encryptFileStream_bigPayload :
    (encryptFileStream bigPayload key0 iv0).1 = chunk0CT ++ chunk1CT := by
  simp only [encryptFileStream, chunksOf_bigPayload, List.map_cons, List.map_nil,
    List.flatten_cons, List.flatten_nil, List.append_nil, chunk0CT, chunk1CT]

/-! ### Claim C1 — per-chunk nonces -/

/-- Claim C1 is refuted by the code: `encryptFileStream` generates one
IV before its loop and passes that same IV to every per-chunk
`crypto.subtle.encrypt` call.  Evaluated at a two-chunk payload, both
chunks are encrypted under the identical `(key, nonce)` pair instead of
each chunk getting its own nonce. -/
theorem encryptFileStream_reuses_one_iv :
    encryptFileStreamChunkIVs bigPayload iv0 = [iv0, iv0] := by
  simp only [encryptFileStreamChunkIVs, chunksOf_bigPayload, List.map_cons,
    List.map_nil]

/-! ### Claim C2 — verifier correctness -/

/-- Claim C2 is refuted by the code: `deriveKey` creates the room key
non-extractable, so `computeVerifierHash` (which calls
`exportKey('raw', …)`) always throws, and `verifyRoomCode` therefore
returns `false` for every expected hash — in particular there is no hash
for which the correct room code verifies, because
`computeVerifierHash (deriveKey r s)` itself never produces one. -/
theorem verifyRoomCode_never_true (expected : List Nat) :
    verifyRoomCode sampleRoomCode (btoa sampleSalt) expected = false ∧
    (deriveKey sampleRoomCode (SaltInput.bytes sampleSalt)).bind
      computeVerifierHash = none :=
  ⟨verifyRoomCode_false _ _ _, rfl⟩

/-- Symbolic helper: a two-chunk blob whose first slice fails to
decrypt makes the whole `decryptFileStream` fail.  Stated over variables
only, so no large literal is ever reduced. -/
theorem decryptFileStream_two_chunks_fail (key : CryptoKey) (iv l1 l2 : List Nat)
    (hiv : atob (btoa iv) = some iv)
    (hchunks : chunksOf chunkSize (l1 ++ l2) = [l1, l2])
    (h1 : subtleDecrypt key iv l1 = none) :
    decryptFileStream (l1 ++ l2) (btoa iv) key = none := by
  rw [decryptFileStream, hiv, Option.some_bind, hchunks, mapMOpt_cons]
  rw [h1, Option.none_bind, Option.map_none']

/-! ### Claim C3 — multi-chunk round-trip -/

/-- Claim C3 is refuted by the code: each encrypted chunk is 16 bytes
longer than its plaintext chunk, but `decryptFileStream` slices the
ciphertext blob at plain 2 MiB boundaries, so for any payload spanning
more than one chunk the slices misalign with the chunk ciphertexts and
decryption fails instead of returning the original bytes.  Evaluated at
a payload of 2,097,153 zero bytes (one full chunk plus one byte). -/
theorem decryptFileStream_multichunk_fails :
    decryptFileStream (encryptFileStream bigPayload key0 iv0).1
      (encryptFileStream bigPayload key0 iv0).2 key0 = none := by
  have h1 : (encryptFileStream bigPayload key0 iv0).1 =
      List.replicate 2097152 253 ++
        (List.replicate 16 254 ++ (253 :: List.replicate 16 252)) := by
    rw [encryptFileStream_bigPayload, chunk0CT_eq, chunk1CT_eq]
    exact List.append_assoc _ _ _
  rw [h1, show (encryptFileStream bigPayload key0 iv0).2 = btoa iv0 from rfl]
  exact decryptFileStream_two_chunks_fail key0 iv0
    (List.replicate 2097152 253)
    (List.replicate 16 254 ++ (253 :: List.replicate 16 252))
    atob_btoa_iv0
    (chunksOf_pair chunkSize (by norm_num [chunkSize])
      (List.replicate 2097152 253)
      (List.replicate 16 254 ++ (253 :: List.replicate 16 252))
      (by rw [List.length_replicate]; norm_num [chunkSize]) (by simp)
      (by simp only [List.length_append, List.length_replicate, List.length_cons]
          norm_num [chunkSize]))
    subtleDecrypt_full_slice

/-! ### Claim C4 — chunk swap / truncation detection via AAD -/

/-- Claim C4 is refuted by the code: no chunk index is bound into any
AEAD associated data (the source passes none, and every chunk shares the
one IV).  Swapping the two chunk ciphertexts, or truncating the blob to
its first chunk ciphertext, does make `decryptFileStream` fail — but
only because the 2 MiB slicing misaligns with the 2 MiB + 16 chunk
ciphertexts, the same reason the untampered blob fails. -/
theorem decryptFileStream_swapped_truncated :
    decryptFileStream (chunk1CT ++ chunk0CT) (btoa iv0) key0 = none ∧
    decryptFileStream chunk0CT (btoa iv0) key0 = none := by
  constructor
  · have hblob : chunk1CT ++ chunk0CT =
        (253 :: (List.replicate 16 252 ++ List.replicate 2097135 253)) ++
          (List.replicate 17 253 ++ List.replicate 16 254) := by
      rw [chunk0CT_eq, chunk1CT_eq]
      rw [show List.replicate 2097152 253 =
          List.replicate 2097135 253 ++ List.replicate 17 253 from by
        rw [← List.replicate_add]]
      simp only [List.cons_append, List.append_assoc]
    rw [hblob]
    exact decryptFileStream_two_chunks_fail key0 iv0
      (253 :: (List.replicate 16 252 ++ List.replicate 2097135 253))
      (List.replicate 17 253 ++ List.replicate 16 254)
      atob_btoa_iv0
      (chunksOf_pair chunkSize (by norm_num [chunkSize])
        (253 :: (List.replicate 16 252 ++ List.replicate 2097135 253))
        (List.replicate 17 253 ++ List.replicate 16 254)
        (by rw [List.length_cons, List.length_append, List.length_replicate,
              List.length_replicate]
            rfl)
        (by apply List.ne_nil_of_length_pos
            simp only [List.length_append, List.length_replicate]
            norm_num)
        (by simp only [List.length_append, List.length_replicate]
            norm_num [chunkSize]))
      subtleDecrypt_swapped_slice
  · rw [chunk0CT_eq]
    exact decryptFileStream_two_chunks_fail key0 iv0
      (List.replicate 2097152 253) (List.replicate 16 254)
      atob_btoa_iv0
      (chunksOf_pair chunkSize (by norm_num [chunkSize])
        (List.replicate 2097152 253) (List.replicate 16 254)
        (by rw [List.length_replicate]; norm_num [chunkSize]) (by simp)
        (by rw [List.length_replicate]; norm_num [chunkSize]))
      subtleDecrypt_full_slice
